import Mathlib

/-!
Verification development for the regex-search server (`src/server.js`).

The core of the server is a pattern-search engine:
* a per-line occurrence scan built on JavaScript `RegExp.exec` with its
  `lastIndex` protocol (`handleRegexSearch` lines 122-143, `searchDirectory`
  lines 222-243);
* a recursive directory walk with a skip policy for hidden directories and
  `node_modules`, an extension filter, and per-file fault tolerance
  (`searchDirectory` lines 202-261);
* aggregation of per-line and per-file match counts into summaries.

The embedding below translates that engine into Lean.  A JavaScript regex
pattern string is represented by its parse result (`PatternSrc`): the AST of
the pattern when the `RegExp` constructor accepts it, a dedicated `bad`
constructor when the constructor rejects it with a `SyntaxError`.  The matcher
implements ECMAScript backtracking semantics for the modelled AST fragment
(left-biased alternation, greedy star with the no-empty-iteration rule), and
`jsExec` implements the `RegExp.exec` / `lastIndex` protocol.  The unbounded
`while ((match = lineRegex.exec(line)) !== null)` loop of the source is
embedded as a fuelled recursion returning `Option`: `none` means that no
finite number of loop iterations completes, i.e. the source loop does not
terminate.  All definitions are structurally recursive so that concrete runs
reduce by `rfl`/`decide`.
-/

namespace Server

/-- AST of the modelled fragment of JavaScript regular expressions: the empty
pattern, single characters, concatenation, alternation `|` and Kleene star. -/
inductive Regex where
  | epsilon : Regex
  | char : Char → Regex
  | concat : Regex → Regex → Regex
  | alt : Regex → Regex → Regex
  | star : Regex → Regex
deriving DecidableEq, Repr

/-- Can the regex match the empty string?  (Standard nullability.) -/
def nullable : Regex → Bool
  | .epsilon => true
  | .char _ => false
  | .concat r1 r2 => nullable r1 && nullable r2
  | .alt r1 r2 => nullable r1 || nullable r2
  | .star _ => true

/-- The recognized regex flags of the server (`g`, `i`, `m`, `s`, cf. the tool
schema "Regex flags (g, i, m, s)" in `src/server.js`). -/
structure RegexFlags where
  g : Bool
  i : Bool
  m : Bool
  s : Bool
deriving DecidableEq, Repr

/-- Character comparison under optional case-insensitivity (the `i` flag);
models ECMAScript canonicalization for the character ranges considered. -/
def charMatches (ci : Bool) (pc c : Char) : Bool :=
  if ci then pc.toLower = c.toLower else pc = c

/-- One backtracking layer of the matcher.  `msubGo ci s rec r i` is the list
of end positions of matches of `r` starting at position `i` of `s`, in
ECMAScript backtracking preference order (head = the match `exec` commits to).
`rec` is the continuation used for star iterations that have consumed at least
one character; per the ECMAScript `RepeatMatcher`, an iteration of `r*` whose
body consumed nothing is discarded. -/
def msubGo (ci : Bool) (s : List Char) (rec : Regex → Nat → List Nat) :
    Regex → Nat → List Nat
  | .epsilon, i => [i]
  | .char c, i =>
    if h : i < s.length then
      if charMatches ci c (s.get ⟨i, h⟩) then [i + 1] else []
    else []
  | .concat r1 r2, i =>
    (msubGo ci s rec r1 i).flatMap fun j => msubGo ci s rec r2 j
  | .alt r1 r2, i => msubGo ci s rec r1 i ++ msubGo ci s rec r2 i
  | .star r, i =>
    ((msubGo ci s rec r i).flatMap fun j =>
      if i < j then rec (.star r) j else []) ++ [i]

/-- Fuelled matcher: each fuel level permits one strictly position-advancing
star iteration.  Since positions are bounded by `s.length`, fuel
`s.length + 1` is always sufficient (a star continuation is only invoked at a
strictly larger position, and positions never exceed `s.length`). -/
def msubF (ci : Bool) (s : List Char) : Nat → Regex → Nat → List Nat
  | 0, _, _ => []
  | fuel + 1, r, i => msubGo ci s (fun r' j => msubF ci s fuel r' j) r i

/-- End positions of matches of `r` at position `i` of `s`, in ECMAScript
backtracking preference order. -/
def msub (ci : Bool) (s : List Char) (r : Regex) (i : Nat) : List Nat :=
  msubF ci s (s.length + 1) r i

/-- A compiled regex: the pattern AST together with its parsed flags. -/
structure CompiledRegex where
  re : Regex
  flags : RegexFlags
deriving DecidableEq, Repr

/-- Try positions `i`, `i+1`, ... (at most `fuel` of them): the first position
at which the pattern matches, together with the end position of the match the
backtracking engine commits to.  This is how `RegExp.exec` locates a match
from `lastIndex` onwards for a non-sticky regex. -/
def firstMatchAux (cr : CompiledRegex) (s : List Char) :
    Nat → Nat → Option (Nat × Nat)
  | 0, _ => none
  | fuel + 1, i =>
    if i ≤ s.length then
      match (msub cr.flags.i s cr.re i).head? with
      | some e => some (i, e)
      | none => firstMatchAux cr s fuel (i + 1)
    else none

/-- First match of `cr` in `s` at a position `≥ i`: `some (p, e)` is a match
spanning positions `p` (inclusive) to `e` (exclusive). -/
def firstMatchFrom (cr : CompiledRegex) (s : List Char) (i : Nat) :
    Option (Nat × Nat) :=
  firstMatchAux cr s (s.length + 1 - i) i

/-- One call of `lineRegex.exec(line)` (ECMAScript `RegExpBuiltinExec`) given
the current `lastIndex`: returns the match, if any, and the new `lastIndex`.
With the `g` flag the search starts at `lastIndex` and a successful match sets
`lastIndex` to the match end; failure resets it to `0`.  Without `g`,
`lastIndex` is ignored and left unchanged, and the search starts at `0`. -/
def jsExec (cr : CompiledRegex) (s : List Char) (lastIndex : Nat) :
    Option (Nat × Nat) × Nat :=
  if cr.flags.g then
    if lastIndex ≤ s.length then
      match firstMatchFrom cr s lastIndex with
      | some m => (some m, m.2)
      | none => (none, 0)
    else (none, 0)
  else
    match firstMatchFrom cr s 0 with
    | some m => (some m, lastIndex)
    | none => (none, lastIndex)

/-- The characters of `s` from position `p` (inclusive) to `e` (exclusive),
as a string: the text `match[0]` of a match `(p, e)`. -/
def strSlice (s : List Char) (p e : Nat) : String :=
  String.mk ((s.take e).drop p)

/-- One located match on a line: `{matchText: match[0], column: match.index + 1}`
(`src/server.js` lines 130-133 and 229-232). -/
structure Occurrence where
  matchText : String
  column : Nat
deriving DecidableEq, Repr

/-- The loop `while ((match = lineRegex.exec(line)) !== null) lineMatches.push(...)`
(`src/server.js` lines 126-134), embedded with fuel: `fuel` bounds the number
of loop iterations, `li` is the current `lastIndex` of the regex, `acc` the
`lineMatches` array pushed so far.  `none` means the loop performs more than
`fuel` iterations; `∀ fuel, ... = none` means the source loop never
terminates. -/
def findOccAux (cr : CompiledRegex) (s : List Char) :
    Nat → Nat → List Occurrence → Option (List Occurrence)
  | 0, li, acc =>
    match jsExec cr s li with
    | (none, _) => some acc
    | (some _, _) => none
  | fuel + 1, li, acc =>
    match jsExec cr s li with
    | (none, _) => some acc
    | (some m, li') =>
      findOccAux cr s fuel li' (acc ++ [⟨strSlice s m.1 m.2, m.1 + 1⟩])

/-- The ordered sequence of occurrences the per-line scan reports, with the
canonical fuel `length + 1` (sufficient for every terminating run of the
source loop, since each reported match moves `lastIndex` strictly forward).
`none` marks a line on which the `while`/`exec` loop of the source diverges. -/
def findOccurrences (cr : CompiledRegex) (line : String) :
    Option (List Occurrence) :=
  findOccAux cr line.toList (line.toList.length + 1) 0 []

/-- A JavaScript regex pattern string, represented by its parse result: `bad`
stands for a pattern the `RegExp` constructor rejects with a `SyntaxError`
(e.g. `"("`), `ok re` for a pattern that parses to the AST `re`. -/
inductive PatternSrc where
  | bad : PatternSrc
  | ok : Regex → PatternSrc
deriving DecidableEq, Repr

/-- Parse a flags string as the `RegExp` constructor does for the recognized
alphabet `g`, `i`, `m`, `s`: an unrecognized or repeated flag character is a
`SyntaxError` ("Invalid flags"). -/
def parseFlagsAux : List Char → RegexFlags → Except String RegexFlags
  | [], acc => .ok acc
  | c :: rest, acc =>
    if c = 'g' then
      if acc.g then .error "Invalid flags" else parseFlagsAux rest { acc with g := true }
    else if c = 'i' then
      if acc.i then .error "Invalid flags" else parseFlagsAux rest { acc with i := true }
    else if c = 'm' then
      if acc.m then .error "Invalid flags" else parseFlagsAux rest { acc with m := true }
    else if c = 's' then
      if acc.s then .error "Invalid flags" else parseFlagsAux rest { acc with s := true }
    else .error "Invalid flags"

def parseFlags (flags : String) : Except String RegexFlags :=
  parseFlagsAux flags.toList ⟨false, false, false, false⟩

/-- `new RegExp(pattern, flags)`: throws (returns `.error`) on a syntactically
invalid pattern or an invalid flags string, otherwise yields the compiled
regex. -/
def compileRegex (pattern : PatternSrc) (flags : String) :
    Except String CompiledRegex :=
  match pattern with
  | .bad => .error "Invalid regular expression"
  | .ok re => (parseFlags flags).map fun f => ⟨re, f⟩

/-- One reported line: `{lineNumber, content, matches}` (the `matches` field is named
`lineMatches` here, after the array of the source, since `matches` is a Lean keyword) (`src/server.js`
lines 137-141 and 236-240). -/
structure LineResult where
  lineNumber : Nat
  content : String
  lineMatches : List Occurrence
deriving DecidableEq, Repr

/-- `content.split("\n")` on the character list: split on every line feed,
keeping empty segments; the empty text yields the single line `""`. -/
def splitLinesAux : List Char → List (List Char)
  | [] => [[]]
  | c :: rest =>
    match splitLinesAux rest with
    | [] => [[c]]
    | l :: ls => if c = '\n' then [] :: l :: ls else (c :: l) :: ls

/-- `fileContent.split("\n")` (`src/server.js` lines 117 and 219): no special
treatment of carriage returns. -/
def splitLines (content : String) : List String :=
  (splitLinesAux content.toList).map String.mk

/-- The `lines.forEach((line, index) => ...)` scan (`src/server.js`
lines 122-143 and 222-243): line `index` is numbered `idx + index + 1`, a
`LineResult` is pushed only when the line has at least one occurrence.
`none` propagates a line on which the `exec` loop diverges. -/
def scanLines (cr : CompiledRegex) : List String → Nat → Option (List LineResult)
  | [], _ => some []
  | line :: rest, idx =>
    match findOccurrences cr line with
    | none => none
    | some occs =>
      (scanLines cr rest (idx + 1)).map fun tail =>
        if occs.isEmpty then tail else ⟨idx + 1, line, occs⟩ :: tail

/-- Sum of the occurrence counts of a list of line results:
`reduce((sum, m) => sum + m.matches.length, 0)` (`src/server.js` lines 149 and
248-251), and also the total added to `totalMatches` line by line (line 241). -/
def sumMatches (lrs : List LineResult) : Nat :=
  lrs.foldl (fun sum m => sum + m.lineMatches.length) 0

/-- One reported file in a directory search: `{file, matchCount, results}`
(`src/server.js` lines 246-252). -/
structure FileResult where
  file : String
  matchCount : Nat
  results : List LineResult
deriving DecidableEq, Repr

deriving instance DecidableEq for Except

/-- A directory listing as the walk sees it: a sibling chain of entries in
filesystem enumeration order.  The content of a file is `.ok text` when
`readFileSync` succeeds and `.error msg` when it throws; a `dir` node carries
its own listing and the next sibling. -/
inductive FSNode where
  | nil : FSNode
  | file : String → Except String String → FSNode → FSNode
  | dir : String → FSNode → FSNode → FSNode
deriving DecidableEq, Repr

/-- Does the entry name start with a `.` (JavaScript `file.startsWith(".")`)? -/
def startsWithDot (name : String) : Bool :=
  match name.toList with
  | '.' :: _ => true
  | [] => false
  | _ :: _ => false

/-- The Node function `path.extname(file)`: the suffix of the name from its last `.`
(inclusive), except that a `.` at position 0 does not start an extension
(so `".js"` has extension `""` while `".hidden.js"` has `".js"`).  Entry
names come from `readdirSync`, which never yields `"."` or `".."`. -/
def lastDotSuffix : List Char → Option (List Char)
  | [] => none
  | c :: rest =>
    match lastDotSuffix rest with
    | some suf => some suf
    | none => if c = '.' then some (c :: rest) else none

def extname (name : String) : String :=
  match name.toList with
  | [] => ""
  | _ :: rest =>
    match lastDotSuffix rest with
    | some suf => String.mk suf
    | none => ""

/-- The default extension filter of `regex_search_directory`. -/
def defaultExts : List String := [".js", ".ts", ".txt", ".md", ".json"]

/-- Processing of one regular-file entry of the walk (`src/server.js`
lines 214-258): the extension filter is checked first; inside the per-file
`try` the file is read and scanned line by line, where each line evaluates
`new RegExp(pattern, flags)` afresh — so a read failure or a regex compile
error throws inside the `try` and the file is silently skipped (`some ([], 0)`).
A compile error always surfaces at the first line, because `split("\n")`
yields at least one line for every content.  Returns the pushed `FileResult`s
(one or none) and the amount added to the mutable `totalMatches`. -/
def visitFile (pattern : PatternSrc) (flags : String) (exts : List String)
    (dir name : String) (content : Except String String) :
    Option (List FileResult × Nat) :=
  if extname name ∈ exts then
    match content with
    | .error _ => some ([], 0)
    | .ok text =>
      match compileRegex pattern flags with
      | .error _ => some ([], 0)
      | .ok cr =>
        (scanLines cr (splitLines text) 0).map fun lrs =>
          if lrs.isEmpty then ([], 0)
          else ([⟨dir ++ "/" ++ name, sumMatches lrs, lrs⟩], sumMatches lrs)
  else some ([], 0)

/-- The recursive walk `searchDirectory(dir)` (`src/server.js` lines 202-261)
over a directory listing: directory entries whose name starts with `.` or is
`node_modules` are not descended into; file entries go through `visitFile`.
Results and `totalMatches` contributions accumulate in visit order.  `none`
means some scanned line made the `exec` loop diverge. -/
def searchDirectory (pattern : PatternSrc) (flags : String) (exts : List String)
    (dir : String) : FSNode → Option (List FileResult × Nat)
  | .nil => some ([], 0)
  | .file name content next =>
    (visitFile pattern flags exts dir name content).bind fun a =>
      (searchDirectory pattern flags exts dir next).map fun b =>
        (a.1 ++ b.1, a.2 + b.2)
  | .dir name children next =>
    (if startsWithDot name = false ∧ name ≠ "node_modules" then
        searchDirectory pattern flags exts (dir ++ "/" ++ name) children
      else some ([], 0)).bind fun a =>
      (searchDirectory pattern flags exts dir next).map fun b =>
        (a.1 ++ b.1, a.2 + b.2)

/-- Model of `path.resolve(p)` against the current working directory: an
absolute path is kept, a relative one is appended to `cwd`. -/
def resolvePath (cwd p : String) : String :=
  match p.toList with
  | '/' :: _ => p
  | _ => cwd ++ "/" ++ p

/-- The single-file summary (`src/server.js` lines 145-151). -/
structure FileSummary where
  file : String
  pattern : PatternSrc
  flags : String
  totalMatches : Nat
  results : List LineResult
deriving DecidableEq, Repr

/-- The directory summary (`src/server.js` lines 265-273). -/
structure DirSummary where
  directory : String
  pattern : PatternSrc
  flags : String
  extensions : List String
  filesMatched : Nat
  totalMatches : Nat
  results : List FileResult
deriving DecidableEq, Repr

/-- The `regex_search` handler (`src/server.js` lines 98-172).  `fsf` is the
filesystem at resolved paths: `none` means the path does not exist,
`some (.error msg)` that `readFileSync` throws `msg`, `some (.ok content)`
the readable content.  The outer value is `none` when the scan diverges;
otherwise `.error` is the `isError: true` response with its message and
`.ok` the summary.  Order as in the source: resolve, existence check, read,
compile, scan. -/
def handleRegexSearch (fsf : String → Option (Except String String))
    (cwd : String) (pattern : PatternSrc) (filePath : String)
    (flags : String := "g") : Option (Except String FileSummary) :=
  let resolved := resolvePath cwd filePath
  match fsf resolved with
  | none => some (.error ("File not found: " ++ resolved))
  | some (.error msg) => some (.error ("Error: " ++ msg))
  | some (.ok content) =>
    match compileRegex pattern flags with
    | .error msg => some (.error ("Error: " ++ msg))
    | .ok cr =>
      (scanLines cr (splitLines content) 0).map fun lrs =>
        .ok ⟨resolved, pattern, flags, sumMatches lrs, lrs⟩

/-- The `regex_search_directory` handler (`src/server.js` lines 174-294).
`fsd` maps a resolved path to the listing of the directory there (`none` when
the path does not exist).  Note that, unlike the single-file handler, no
regex is compiled before the walk: compilation first happens per line inside
the per-file `try` of the walk. -/
def handleRegexSearchDirectory (fsd : String → Option FSNode)
    (cwd : String) (pattern : PatternSrc) (dirPath : String)
    (exts : List String := defaultExts) (flags : String := "g") :
    Option (Except String DirSummary) :=
  let resolved := resolvePath cwd dirPath
  match fsd resolved with
  | none => some (.error ("Directory not found: " ++ resolved))
  | some listing =>
    (searchDirectory pattern flags exts resolved listing).map fun r =>
      .ok ⟨resolved, pattern, flags, exts, r.1.length, r.2, r.1⟩

/-! ### Specification-side definitions

These definitions follow the wording of the specification (not the source);
they exist to be compared with the source-shaped definitions above. -/

/-- Spec side, for the global-scan claim: the sequence of non-overlapping
matches of a line, as `(start, end)` position pairs — repeatedly take the
leftmost match at or after the current position and continue at its end
(stopping before an empty match, which for a pattern that cannot match the
empty string never occurs).  Each fuel level yields one match; since matches
here are non-empty and starts are strictly increasing and bounded by the line
length, fuel `length + 1` is sufficient. -/
def matchSeqAux (cr : CompiledRegex) (s : List Char) : Nat → Nat → List (Nat × Nat)
  | 0, _ => []
  | fuel + 1, i =>
    match firstMatchFrom cr s i with
    | none => []
    | some m => if m.1 < m.2 then m :: matchSeqAux cr s fuel m.2 else []

/-- The non-overlapping left-to-right match sequence of a whole line. -/
def matchSeq (cr : CompiledRegex) (s : List Char) : List (Nat × Nat) :=
  matchSeqAux cr s (s.length + 1) 0

/-- The occurrence reported for a match `(p, e)`: its text and the 1-based
column `p + 1` (0-based start index plus one). -/
def occOf (s : List Char) (m : Nat × Nat) : Occurrence :=
  ⟨strSlice s m.1 m.2, m.1 + 1⟩

/-- Spec side, for the per-file scan claim: number the lines 0-based, find
the occurrences of each line, and keep — in original order, renumbered 1-based —
exactly the lines with at least one occurrence. -/
def scanLinesSpec (cr : CompiledRegex) (lines : List String) :
    Option (List LineResult) :=
  (lines.enum.mapM fun p =>
      (findOccurrences cr p.2).map fun occs => (p.1, p.2, occs)).map
    fun triples =>
      triples.filterMap fun t =>
        if t.2.2.isEmpty then none else some ⟨t.1 + 1, t.2.1, t.2.2⟩

/-! ### Concrete fixtures used by witnesses and counterexamples -/

/-- The pattern `"foo"`. -/
def reFoo : Regex := .concat (.char 'f') (.concat (.char 'o') (.char 'o'))

/-- `new RegExp("foo", "g")`. -/
def crFoo : CompiledRegex := ⟨reFoo, ⟨true, false, false, false⟩⟩

/-- `new RegExp("a*", "g")` — a pattern capable of matching the empty string,
with the global flag. -/
def crStarA : CompiledRegex := ⟨.star (.char 'a'), ⟨true, false, false, false⟩⟩

/-- `new RegExp("a", "")` — a pattern compiled without the global flag. -/
def crA : CompiledRegex := ⟨.char 'a', ⟨false, false, false, false⟩⟩

/-- A filesystem with the single directory `/w/d` containing one eligible,
readable file `a.txt`. -/
def fsdBad : String → Option FSNode := fun p =>
  if p = "/w/d" then some (.file "a.txt" (.ok "x") .nil) else none

/-- A filesystem with the single readable file `/w/f.txt`. -/
def fsfBad : String → Option (Except String String) := fun p =>
  if p = "/w/f.txt" then some (.ok "x") else none

/-- A directory tree with a subdirectory holding a matching file, a matching
file at top level, and an unreadable file. -/
def tree9 : FSNode :=
  .dir "sub" (.file "b.txt" (.ok "foo") .nil)
    (.file "a.md" (.ok "x\nfoo foo") (.file "bad.txt" (.error "EACCES") .nil))

/-- The file results the walk over `tree9` produces for pattern `"foo"`. -/
def frs9 : List FileResult :=
  [⟨"/d/sub/b.txt", 1, [⟨1, "foo", [⟨"foo", 1⟩]⟩]⟩,
   ⟨"/d/a.md", 2, [⟨2, "foo foo", [⟨"foo", 1⟩, ⟨"foo", 5⟩]⟩]⟩]

/-! ## Helper lemmas about the matcher -/

/-- Every match end produced by one backtracking layer lies between the start
position and the end of the line, provided the continuation has the same
property. -/
theorem msubGo_bounds (ci : Bool) (s : List Char) (rec : Regex → Nat → List Nat)
    (hrec : ∀ r j k, j ≤ s.length → k ∈ rec r j → j ≤ k ∧ k ≤ s.length)
    (r : Regex) :
    ∀ i j : Nat, i ≤ s.length → j ∈ msubGo ci s rec r i → i ≤ j ∧ j ≤ s.length := by
  induction r with
  | epsilon =>
    intro i j hi hj
    simp [msubGo] at hj
    omega
  | char c =>
    intro i j hi hj
    simp only [msubGo] at hj
    split at hj
    · split at hj <;> simp at hj
      omega
    · simp at hj
  | concat r1 r2 ih1 ih2 =>
    intro i j hi hj
    simp only [msubGo, List.mem_flatMap] at hj
    obtain ⟨j1, hj1, hj2⟩ := hj
    obtain ⟨h1, h2⟩ := ih1 i j1 hi hj1
    obtain ⟨h3, h4⟩ := ih2 j1 j h2 hj2
    omega
  | alt r1 r2 ih1 ih2 =>
    intro i j hi hj
    simp only [msubGo, List.mem_append] at hj
    rcases hj with hj | hj
    · exact ih1 i j hi hj
    · exact ih2 i j hi hj
  | star r ih =>
    intro i j hi hj
    simp only [msubGo, List.mem_append, List.mem_flatMap] at hj
    rcases hj with ⟨j1, hj1, hj2⟩ | hj
    · obtain ⟨h1, h2⟩ := ih i j1 hi hj1
      split at hj2
      · obtain ⟨h3, h4⟩ := hrec _ j1 j h2 hj2
        omega
      · simp at hj2
    · simp at hj
      omega

/-- Bounds for the fuelled matcher. -/
theorem msubF_bounds (ci : Bool) (s : List Char) :
    ∀ (fuel : Nat) (r : Regex) (i j : Nat), i ≤ s.length →
      j ∈ msubF ci s fuel r i → i ≤ j ∧ j ≤ s.length := by
  intro fuel
  induction fuel with
  | zero => intro r i j _ hj; simp [msubF] at hj
  | succ n ih =>
    intro r i j hi hj
    exact msubGo_bounds ci s _ (fun r' j' k hj' hk => ih r' j' k hj' hk) r i j hi hj

/-- Bounds for the matcher. -/
theorem msub_bounds (ci : Bool) (s : List Char) (r : Regex) (i j : Nat)
    (hi : i ≤ s.length) (hj : j ∈ msub ci s r i) : i ≤ j ∧ j ≤ s.length :=
  msubF_bounds ci s (s.length + 1) r i j hi hj

/-- A pattern that cannot match the empty string only produces strictly
advancing match ends. -/
theorem msubGo_pos (ci : Bool) (s : List Char) (rec : Regex → Nat → List Nat)
    (hrec : ∀ r j k, j ≤ s.length → k ∈ rec r j → j ≤ k ∧ k ≤ s.length)
    (r : Regex) :
    ∀ i j : Nat, nullable r = false → i ≤ s.length → j ∈ msubGo ci s rec r i → i < j := by
  induction r with
  | epsilon => intro i j hn hi hj; simp [nullable] at hn
  | char c =>
    intro i j hn hi hj
    simp only [msubGo] at hj
    split at hj
    · split at hj <;> simp at hj
      omega
    · simp at hj
  | concat r1 r2 ih1 ih2 =>
    intro i j hn hi hj
    simp only [msubGo, List.mem_flatMap] at hj
    obtain ⟨j1, hj1, hj2⟩ := hj
    obtain ⟨hb1, hb2⟩ := msubGo_bounds ci s rec hrec r1 i j1 hi hj1
    obtain ⟨hb3, hb4⟩ := msubGo_bounds ci s rec hrec r2 j1 j hb2 hj2
    cases h1 : nullable r1 with
    | false => have := ih1 i j1 h1 hi hj1; omega
    | true =>
      have h2 : nullable r2 = false := by
        simp [nullable, h1] at hn; exact hn
      have := ih2 j1 j h2 hb2 hj2; omega
  | alt r1 r2 ih1 ih2 =>
    intro i j hn hi hj
    simp only [msubGo, List.mem_append] at hj
    have hn' : nullable r1 = false ∧ nullable r2 = false := by
      constructor <;> (cases h1 : nullable r1 <;> cases h2 : nullable r2 <;>
        simp [nullable, h1, h2] at hn ⊢)
    rcases hj with hj | hj
    · exact ih1 i j hn'.1 hi hj
    · exact ih2 i j hn'.2 hi hj
  | star r ih => intro i j hn hi hj; simp [nullable] at hn

/-- Strict advance for the matcher on non-nullable patterns. -/
theorem msub_pos (ci : Bool) (s : List Char) (r : Regex) (i j : Nat)
    (hn : nullable r = false) (hi : i ≤ s.length) (hj : j ∈ msub ci s r i) : i < j := by
  unfold msub msubF at hj
  exact msubGo_pos ci s _ (fun r' j' k hj' hk => msubF_bounds ci s _ r' j' k hj' hk)
    r i j hn hi hj

/-- Soundness of the position scan: a reported match starts at or after the
requested position, within the line, and its end is a matcher result. -/
theorem firstMatchAux_sound (cr : CompiledRegex) (s : List Char) :
    ∀ (fuel i p e : Nat), firstMatchAux cr s fuel i = some (p, e) →
      i ≤ p ∧ p ≤ s.length ∧ e ∈ msub cr.flags.i s cr.re p := by
  intro fuel
  induction fuel with
  | zero => intro i p e h; simp [firstMatchAux] at h
  | succ n ih =>
    intro i p e h
    simp only [firstMatchAux] at h
    split at h
    · split at h
      next e' hh =>
        simp only [Option.some.injEq, Prod.mk.injEq] at h
        obtain ⟨rfl, rfl⟩ := h
        exact ⟨le_refl _, by assumption, List.mem_of_mem_head? hh⟩
      next hh =>
        have hrec := ih (i + 1) p e h
        exact ⟨by omega, hrec.2.1, hrec.2.2⟩
    · simp at h

/-- Soundness of `firstMatchFrom`, including strict advance for non-nullable
patterns. -/
theorem firstMatchFrom_sound (cr : CompiledRegex) (s : List Char) (i p e : Nat)
    (h : firstMatchFrom cr s i = some (p, e)) :
    i ≤ p ∧ p ≤ s.length ∧ e ≤ s.length ∧ p ≤ e ∧
      (nullable cr.re = false → p < e) := by
  have hs := firstMatchAux_sound cr s (s.length + 1 - i) i p e h
  obtain ⟨h1, h2, h3⟩ := hs
  obtain ⟨h4, h5⟩ := msub_bounds cr.flags.i s cr.re p e h2 h3
  exact ⟨h1, h2, h5, h4, fun hn => msub_pos cr.flags.i s cr.re p e hn h2 h3⟩

/-- Past the end of the line there is no match to find. -/
theorem firstMatchFrom_past_end (cr : CompiledRegex) (s : List Char) (i : Nat)
    (hi : s.length < i) : firstMatchFrom cr s i = none := by
  unfold firstMatchFrom
  have h0 : s.length + 1 - i = 0 := by omega
  rw [h0]
  rfl

/-- Refinement of the `exec` loop by the non-overlapping match sequence: with
the global flag and a pattern that cannot match the empty string, the loop
terminates within the fuel bound and pushes exactly the occurrence of each
non-overlapping match. -/
theorem findOccAux_eq_matchSeq (cr : CompiledRegex) (s : List Char)
    (hg : cr.flags.g = true) (hnn : nullable cr.re = false) :
    ∀ (fuel i : Nat) (acc : List Occurrence), s.length + 1 - i ≤ fuel →
      findOccAux cr s fuel i acc =
        some (acc ++ (matchSeqAux cr s fuel i).map (occOf s)) := by
  intro fuel
  induction fuel with
  | zero =>
    intro i acc hfuel
    have hi : ¬ i ≤ s.length := by omega
    have hex : jsExec cr s i = (none, 0) := by simp [jsExec, hg, hi]
    simp [findOccAux, hex, matchSeqAux]
  | succ n ih =>
    intro i acc hfuel
    by_cases hi : i ≤ s.length
    · cases hm : firstMatchFrom cr s i with
      | none =>
        have hex : jsExec cr s i = (none, 0) := by simp [jsExec, hg, hi, hm]
        simp [findOccAux, hex, matchSeqAux, hm]
      | some pe =>
        obtain ⟨p, e⟩ := pe
        have hex : jsExec cr s i = (some (p, e), e) := by simp [jsExec, hg, hi, hm]
        obtain ⟨h1, h2, h3, h4, h5⟩ := firstMatchFrom_sound cr s i p e hm
        have hpe : p < e := h5 hnn
        have step : findOccAux cr s (n + 1) i acc =
            findOccAux cr s n e (acc ++ [occOf s (p, e)]) := by
          simp only [findOccAux]
          rw [hex]
          rfl
        rw [step, ih e (acc ++ [occOf s (p, e)]) (by omega)]
        simp [matchSeqAux, hm, hpe, occOf]
    · have hex : jsExec cr s i = (none, 0) := by simp [jsExec, hg, hi]
      have hm : firstMatchFrom cr s i = none :=
        firstMatchFrom_past_end cr s i (by omega)
      simp [findOccAux, hex, matchSeqAux, hm]

/-- Every match in the sequence starts at or after the scan position. -/
theorem matchSeqAux_lb (cr : CompiledRegex) (s : List Char) :
    ∀ (fuel i : Nat), ∀ m ∈ matchSeqAux cr s fuel i, i ≤ m.1 := by
  intro fuel
  induction fuel with
  | zero => intro i m hm; simp [matchSeqAux] at hm
  | succ n ih =>
    intro i m hm
    cases hfm : firstMatchFrom cr s i with
    | none => simp [matchSeqAux, hfm] at hm
    | some pe =>
      obtain ⟨p, e⟩ := pe
      simp only [matchSeqAux, hfm] at hm
      obtain ⟨h1, -, -, h4, -⟩ := firstMatchFrom_sound cr s i p e hfm
      split at hm
      · rcases List.mem_cons.mp hm with rfl | hm'
        · simpa using h1
        · have := ih e m hm'
          omega
      · simp at hm

/-- The match starts in the sequence are strictly increasing. -/
theorem matchSeqAux_pairwise (cr : CompiledRegex) (s : List Char) :
    ∀ (fuel i : Nat), (matchSeqAux cr s fuel i).Pairwise fun a b => a.1 < b.1 := by
  intro fuel
  induction fuel with
  | zero => intro i; simp [matchSeqAux]
  | succ n ih =>
    intro i
    cases hfm : firstMatchFrom cr s i with
    | none => simp [matchSeqAux, hfm]
    | some pe =>
      obtain ⟨p, e⟩ := pe
      obtain ⟨h1, -, -, h4, -⟩ := firstMatchFrom_sound cr s i p e hfm
      simp only [matchSeqAux, hfm]
      split
      next hpe =>
        refine List.Pairwise.cons ?_ (ih e)
        intro m hm
        have := matchSeqAux_lb cr s n e m hm
        omega
      next => simp

/-! ## Helper lemmas about the walk -/

/-- Prepending a walk contribution of no results and no matches leaves the
remaining walk unchanged. -/
theorem walk_skip (o : Option (List FileResult × Nat)) :
    ((some (([] : List FileResult), (0 : Nat))).bind fun a =>
      o.map fun b => (a.1 ++ b.1, a.2 + b.2)) = o := by
  cases o with
  | none => rfl
  | some b => simp

/-- Generalized per-line scan refinement: scanning with base index `n`
produces exactly the 1-based renumbering of the lines with occurrences,
enumerated from `n`. -/
theorem scanLines_eq_spec_from (cr : CompiledRegex) (lines : List String) :
    ∀ n : Nat, scanLines cr lines n =
      ((lines.enumFrom n).mapM fun p =>
          (findOccurrences cr p.2).map fun occs => (p.1, p.2, occs)).map
        fun triples =>
          triples.filterMap fun t =>
            if t.2.2.isEmpty then none else some ⟨t.1 + 1, t.2.1, t.2.2⟩ := by
  induction lines with
  | nil => intro n; rfl
  | cons l ls ih =>
    intro n
    simp only [scanLines, List.enumFrom, List.mapM_cons]
    cases ho : findOccurrences cr l with
    | none => simp [ho]
    | some occs =>
      rw [ih (n + 1)]
      cases hrest : (List.enumFrom (n + 1) ls).mapM fun p =>
          (findOccurrences cr p.2).map fun occs => (p.1, p.2, occs) with
      | none => simp [ho, hrest]
      | some ts =>
        by_cases hocc : occs = [] <;>
          simp [ho, hrest, hocc, List.filterMap_cons]

/-- The per-file visit invariant: the `totalMatches` contribution is the sum
of the produced `matchCount`s, each `matchCount` is the sum of its line
occurrence counts, and a `FileResult` is produced only with a non-empty line
list. -/
theorem visitFile_inv (pattern : PatternSrc) (flags : String) (exts : List String)
    (dir name : String) (content : Except String String)
    (a : List FileResult × Nat)
    (h : visitFile pattern flags exts dir name content = some a) :
    a.2 = (a.1.map FileResult.matchCount).sum ∧
      ∀ fr ∈ a.1, fr.matchCount = sumMatches fr.results ∧ fr.results ≠ [] := by
  by_cases hx : extname name ∈ exts
  · cases content with
    | error msg =>
      simp only [visitFile, if_pos hx, Option.some.injEq] at h
      obtain rfl := h
      simp
    | ok text =>
      cases hc : compileRegex pattern flags with
      | error m =>
        simp only [visitFile, if_pos hx, hc, Option.some.injEq] at h
        obtain rfl := h
        simp
      | ok cr =>
        simp only [visitFile, if_pos hx, hc] at h
        cases hs : scanLines cr (splitLines text) 0 with
        | none => rw [hs] at h; simp at h
        | some lrs =>
          rw [hs] at h
          simp at h
          by_cases he : lrs = []
          · simp [he] at h
            obtain rfl := h.symm
            simp
          · simp [he] at h
            obtain rfl := h.symm
            constructor
            · simp
            · intro fr hfr
              simp at hfr
              subst hfr
              exact ⟨rfl, he⟩
  · simp only [visitFile, if_neg hx, Option.some.injEq] at h
    obtain rfl := h
    simp

/-! ## The claims -/

/-- C1: the claim states that for an empty-capable pattern under the global
flag, `findOccurrences` on a non-empty line terminates.  The code violates
this: `RegExp.exec` leaves `lastIndex` at the position of a zero-length
match, so the `while` loop of `src/server.js` lines 129-134 re-finds the same
empty match forever.  Concretely, for the pattern `a*` with flags `g` on the
non-empty line `"b"`, no number of loop iterations completes the scan (and
hence `findOccurrences` reports divergence). -/
theorem c1_zero_length_match_stalls :
    (∀ (fuel : Nat) (acc : List Occurrence),
      findOccAux crStarA (String.toList "b") fuel 0 acc = none) ∧
    findOccurrences crStarA "b" = none := by
  have key : ∀ (fuel : Nat) (acc : List Occurrence),
      findOccAux crStarA (String.toList "b") fuel 0 acc = none := by
    intro fuel
    induction fuel with
    | zero => intro acc; rfl
    | succ n ih => intro acc; exact ih _
  exact ⟨key, key _ _⟩

/-- C2: the claim states that without the global flag `findOccurrences`
returns at most one occurrence and terminates.  The code violates the
termination half: without `g`, `exec` ignores `lastIndex` and returns the
first match again on every iteration, so the `while` loop never terminates on
any line with at least one match.  Concretely, for the pattern `a` with empty
flags on the line `"a"`, no number of loop iterations completes the scan,
whatever the starting `lastIndex` and accumulator. -/
theorem c2_nonglobal_exec_loop_stalls :
    (∀ (fuel li : Nat) (acc : List Occurrence),
      findOccAux crA (String.toList "a") fuel li acc = none) ∧
    findOccurrences crA "a" = none := by
  have key : ∀ (fuel li : Nat) (acc : List Occurrence),
      findOccAux crA (String.toList "a") fuel li acc = none := by
    intro fuel
    induction fuel with
    | zero => intro li acc; rfl
    | succ n ih => intro li acc; exact ih li _
  exact ⟨key, key _ _ _⟩

/-- C3: the claim states a compile error is call-level fatal in a directory
search.  The code violates this: `handleRegexSearchDirectory` never compiles
the pattern before walking; the first `new RegExp(pattern, flags)` runs per
line inside the per-file `try` (line 224), so a `SyntaxError` is caught by
the catch at line 255 meant for unreadable files.  On a directory with one
eligible readable file and an invalid pattern, the call returns a normal
success summary with no results instead of a failure value — while the
single-file handler, which compiles at line 119 under the outer `try`,
correctly returns the failure value with the underlying message. -/
theorem c3_compile_error_swallowed_per_file :
    handleRegexSearchDirectory fsdBad "/w" .bad "d" =
      some (.ok ⟨"/w/d", .bad, "g", defaultExts, 0, 0, []⟩) ∧
    handleRegexSearch fsfBad "/w" .bad "f.txt" =
      some (.error "Error: Invalid regular expression") :=
  ⟨rfl, rfl⟩

/-- C4: for a pattern compiled with the global flag whose matches are
necessarily non-empty (`nullable` is false — on a line with only non-empty
matches this is exactly the scan the claim describes), `findOccurrences`
terminates and returns one occurrence per non-overlapping match of
`matchSeq`, in left-to-right order; each column is the 0-based start plus 1
(`occOf`), and the columns are strictly increasing. -/
theorem c4_global_scan_occurrences (cr : CompiledRegex) (hg : cr.flags.g = true)
    (hnn : nullable cr.re = false) (line : String) :
    findOccurrences cr line =
      some ((matchSeq cr line.toList).map (occOf line.toList)) ∧
    ((matchSeq cr line.toList).map fun m => m.1 + 1).Pairwise (· < ·) := by
  constructor
  · have h := findOccAux_eq_matchSeq cr line.toList hg hnn
      (line.toList.length + 1) 0 [] (by omega)
    simpa [findOccurrences, matchSeq] using h
  · have hp := matchSeqAux_pairwise cr line.toList (line.toList.length + 1) 0
    exact List.Pairwise.map _ (fun a b h => by omega) hp

/-- Witness for C4: the pattern `foo` with flags `g` on the line
`"foo bar foo"` (two non-overlapping matches, columns 1 and 9). -/
theorem c4_global_scan_occurrences_witness :
    (crFoo.flags.g = true ∧ nullable crFoo.re = false) ∧
    (findOccurrences crFoo "foo bar foo" =
        some ((matchSeq crFoo (String.toList "foo bar foo")).map
          (occOf (String.toList "foo bar foo"))) ∧
      ((matchSeq crFoo (String.toList "foo bar foo")).map fun m => m.1 + 1).Pairwise
        (· < ·)) ∧
    findOccurrences crFoo "foo bar foo" =
      some [⟨"foo", 1⟩, ⟨"foo", 9⟩] :=
  ⟨⟨rfl, by decide⟩,
    c4_global_scan_occurrences crFoo rfl (by decide) "foo bar foo",
    by decide⟩

/-- C5: when the resolved target does not exist, both handlers return a
failure value whose message names the resolved path, and no summary is
produced; the quantification over all filesystem contents elsewhere shows the
failure precedes any read. -/
theorem c5_not_found_before_read (cwd target : String)
    (fsf : String → Option (Except String String))
    (fsd : String → Option FSNode) (pattern : PatternSrc) (flags : String)
    (exts : List String)
    (h1 : fsf (resolvePath cwd target) = none)
    (h2 : fsd (resolvePath cwd target) = none) :
    handleRegexSearch fsf cwd pattern target flags =
      some (.error ("File not found: " ++ resolvePath cwd target)) ∧
    handleRegexSearchDirectory fsd cwd pattern target exts flags =
      some (.error ("Directory not found: " ++ resolvePath cwd target)) := by
  constructor
  · simp [handleRegexSearch, h1]
  · simp [handleRegexSearchDirectory, h2]

/-- Witness for C5: an empty filesystem and the relative target `x`. -/
theorem c5_not_found_before_read_witness :
    handleRegexSearch (fun _ => none) "/w" .bad "x" "g" =
      some (.error "File not found: /w/x") ∧
    handleRegexSearchDirectory (fun _ => none) "/w" .bad "x" defaultExts "g" =
      some (.error "Directory not found: /w/x") :=
  c5_not_found_before_read "/w" "x" (fun _ => none) (fun _ => none) .bad "g"
    defaultExts rfl rfl

/-- C6: the walk never descends into a directory entry whose name starts with
`.` or equals `node_modules`: such an entry contributes nothing, whatever its
contents (including eligible files), and the walk of the remaining siblings
is unchanged. -/
theorem c6_hidden_dirs_not_descended (pattern : PatternSrc) (flags : String)
    (exts : List String) (dir name : String) (children next : FSNode)
    (h : startsWithDot name = true ∨ name = "node_modules") :
    searchDirectory pattern flags exts dir (.dir name children next) =
      searchDirectory pattern flags exts dir next := by
  have hcond : ¬ (startsWithDot name = false ∧ name ≠ "node_modules") := by
    rcases h with h | h
    · simp [h]
    · simp [h]
  calc searchDirectory pattern flags exts dir (.dir name children next)
      = ((some (([] : List FileResult), (0 : Nat))).bind fun a =>
          (searchDirectory pattern flags exts dir next).map fun b =>
            (a.1 ++ b.1, a.2 + b.2)) := by
        simp only [searchDirectory, if_neg hcond]
    _ = searchDirectory pattern flags exts dir next := walk_skip _

/-- Witness for C6: a `.git` directory containing an eligible matching file
contributes nothing to the walk. -/
theorem c6_hidden_dirs_not_descended_witness :
    startsWithDot ".git" = true ∧
    searchDirectory (.ok reFoo) "g" defaultExts "/d"
        (.dir ".git" (.file "x.js" (.ok "foo") .nil) .nil) =
      searchDirectory (.ok reFoo) "g" defaultExts "/d" .nil :=
  ⟨rfl, c6_hidden_dirs_not_descended (.ok reFoo) "g" defaultExts "/d" ".git" _ _
    (Or.inl rfl)⟩

/-- C7: an unreadable file (one whose read throws) is silently skipped: it
contributes no `FileResult` and nothing to `totalMatches`, the failure is
never surfaced, and the walk of the remaining entries is exactly the walk
without that file. -/
theorem c7_unreadable_file_skipped (pattern : PatternSrc) (flags : String)
    (exts : List String) (dir name msg : String) (next : FSNode) :
    searchDirectory pattern flags exts dir (.file name (.error msg) next) =
      searchDirectory pattern flags exts dir next := by
  have hv : visitFile pattern flags exts dir name (.error msg) = some ([], 0) := by
    by_cases hx : extname name ∈ exts <;> simp [visitFile, hx]
  calc searchDirectory pattern flags exts dir (.file name (.error msg) next)
      = ((some (([] : List FileResult), (0 : Nat))).bind fun a =>
          (searchDirectory pattern flags exts dir next).map fun b =>
            (a.1 ++ b.1, a.2 + b.2)) := by
        simp only [searchDirectory, hv]
    _ = searchDirectory pattern flags exts dir next := walk_skip _

/-- C8: the per-line scan of a file produces a `LineResult` exactly for the
lines with at least one occurrence, numbered 1-based in original order
(refinement of `scanLines` by the enumerate-and-filter `scanLinesSpec`); in
particular, a five-line file with occurrences only on lines 2 and 5 yields
exactly the two `LineResult`s numbered 2 and then 5. -/
theorem c8_scan_reports_matching_lines :
    (∀ (cr : CompiledRegex) (lines : List String),
      scanLines cr lines 0 = scanLinesSpec cr lines) ∧
    scanLines crFoo ["a", "foo", "b", "c", "foo"] 0 =
      some [⟨2, "foo", [⟨"foo", 1⟩]⟩, ⟨5, "foo", [⟨"foo", 1⟩]⟩] := by
  constructor
  · intro cr lines
    have h := scanLines_eq_spec_from cr lines 0
    simpa [scanLinesSpec, List.enum] using h
  · rfl

/-- C9: in every terminating directory walk, each reported `matchCount` is
the sum of the occurrence counts over the respective `LineResult`s, the
accumulated `totalMatches` equals the sum of `matchCount` over all reported
`FileResult`s, and a `FileResult` is reported only for files with at least
one matching line. -/
theorem c9_aggregation_invariants (pattern : PatternSrc) (flags : String)
    (exts : List String) :
    ∀ (node : FSNode) (dir : String) (frs : List FileResult) (total : Nat),
      searchDirectory pattern flags exts dir node = some (frs, total) →
      total = (frs.map FileResult.matchCount).sum ∧
        ∀ fr ∈ frs, fr.matchCount = sumMatches fr.results ∧ fr.results ≠ [] := by
  intro node
  induction node with
  | nil =>
    intro dir frs total h
    simp only [searchDirectory, Option.some.injEq, Prod.mk.injEq] at h
    obtain ⟨rfl, rfl⟩ := h
    simp
  | file name content next ihn =>
    intro dir frs total h
    simp only [searchDirectory] at h
    cases hv : visitFile pattern flags exts dir name content with
    | none => rw [hv] at h; simp at h
    | some a =>
      rw [hv] at h
      cases hn : searchDirectory pattern flags exts dir next with
      | none => rw [hn] at h; simp at h
      | some b =>
        rw [hn] at h
        simp at h
        obtain ⟨rfl, rfl⟩ := h
        obtain ⟨ha1, ha2⟩ := visitFile_inv pattern flags exts dir name content a hv
        obtain ⟨hb1, hb2⟩ := ihn dir b.1 b.2 (by rw [hn])
        constructor
        · simp [List.map_append, List.sum_append]; omega
        · intro fr hfr
          rcases List.mem_append.mp hfr with hh | hh
          · exact ha2 fr hh
          · exact hb2 fr hh
  | dir name children next ihc ihn =>
    intro dir frs total h
    simp only [searchDirectory] at h
    have main : ∀ (a : List FileResult × Nat),
        (a.2 = (a.1.map FileResult.matchCount).sum ∧
          ∀ fr ∈ a.1, fr.matchCount = sumMatches fr.results ∧ fr.results ≠ []) →
        ((some a).bind fun a =>
          (searchDirectory pattern flags exts dir next).map fun b =>
            (a.1 ++ b.1, a.2 + b.2)) = some (frs, total) →
        total = (frs.map FileResult.matchCount).sum ∧
          ∀ fr ∈ frs, fr.matchCount = sumMatches fr.results ∧ fr.results ≠ [] := by
      intro a hA hh
      obtain ⟨ha1, ha2⟩ := hA
      cases hn : searchDirectory pattern flags exts dir next with
      | none => rw [hn] at hh; simp at hh
      | some b =>
        rw [hn] at hh
        simp at hh
        obtain ⟨rfl, rfl⟩ := hh
        obtain ⟨hb1, hb2⟩ := ihn dir b.1 b.2 (by rw [hn])
        constructor
        · simp [List.map_append, List.sum_append]; omega
        · intro fr hfr
          rcases List.mem_append.mp hfr with hh | hh
          · exact ha2 fr hh
          · exact hb2 fr hh
    split at h
    · cases hc : searchDirectory pattern flags exts (dir ++ "/" ++ name) children with
      | none => rw [hc] at h; simp at h
      | some a =>
        rw [hc] at h
        exact main a (ihc (dir ++ "/" ++ name) a.1 a.2 (by rw [hc])) h
    · exact main ([], 0) (by simp) h

/-- Witness for C9: the walk over `tree9` (a subdirectory with one matching
file, a top-level file with two matches on one line, and an unreadable file)
reports `frs9` with `totalMatches` 3, and the invariants hold there. -/
theorem c9_aggregation_invariants_witness :
    searchDirectory (.ok reFoo) "g" defaultExts "/d" tree9 = some (frs9, 3) ∧
    (3 = (frs9.map FileResult.matchCount).sum ∧
      ∀ fr ∈ frs9, fr.matchCount = sumMatches fr.results ∧ fr.results ≠ []) :=
  ⟨rfl, c9_aggregation_invariants (.ok reFoo) "g" defaultExts tree9 "/d" frs9 3 rfl⟩

/-- C10: the leading-dot skip applies only to directory entries.  A file
entry whose name starts with `.` is never skipped for that reason: when its
`extname` — empty for a name like `.js`, since a dot at position 0 does not
start an extension — is not in the accepted set it contributes nothing, and
with the default set `.hidden.js` (extension `.js`) is scanned and reported
while a file named exactly `.js` (extension empty) is not. -/
theorem c10_dot_file_scanned_by_extension :
    (∀ (pattern : PatternSrc) (flags : String) (exts : List String)
        (dir name : String) (content : Except String String) (next : FSNode),
      startsWithDot name = true → extname name ∉ exts →
      searchDirectory pattern flags exts dir (.file name content next) =
        searchDirectory pattern flags exts dir next) ∧
    extname ".hidden.js" = ".js" ∧ extname ".js" = "" ∧
    searchDirectory (.ok reFoo) "g" defaultExts "/d"
        (.file ".hidden.js" (.ok "foo") .nil) =
      some ([⟨"/d/.hidden.js", 1, [⟨1, "foo", [⟨"foo", 1⟩]⟩]⟩], 1) ∧
    searchDirectory (.ok reFoo) "g" defaultExts "/d"
        (.file ".js" (.ok "foo") .nil) =
      some ([], 0) := by
  refine ⟨?_, rfl, rfl, rfl, rfl⟩
  intro pattern flags exts dir name content next _ hext
  have hv : visitFile pattern flags exts dir name content = some ([], 0) := by
    simp [visitFile, hext]
  calc searchDirectory pattern flags exts dir (.file name content next)
      = ((some (([] : List FileResult), (0 : Nat))).bind fun a =>
          (searchDirectory pattern flags exts dir next).map fun b =>
            (a.1 ++ b.1, a.2 + b.2)) := by
        simp only [searchDirectory, hv]
    _ = searchDirectory pattern flags exts dir next := walk_skip _

/-- Witness for C10: the dot-file `.gitignore` has empty `extname`, which is
not in the default set, so it contributes nothing even though its content
matches. -/
theorem c10_dot_file_scanned_by_extension_witness :
    (startsWithDot ".gitignore" = true ∧ extname ".gitignore" ∉ defaultExts) ∧
    searchDirectory (.ok reFoo) "g" defaultExts "/d"
        (.file ".gitignore" (.ok "foo") .nil) =
      searchDirectory (.ok reFoo) "g" defaultExts "/d" .nil :=
  ⟨⟨rfl, by decide⟩,
    c10_dot_file_scanned_by_extension.1 (.ok reFoo) "g" defaultExts "/d"
      ".gitignore" (.ok "foo") .nil rfl (by decide)⟩

end Server
